import Mathlib

/-!
Shallow embedding of the Sprague-Grundy periodicity analysis code:
`compute_grundy_values`, `detect_pure_period` and `detect_arithmetic_period`
from `utils.py` (together with `main.py`'s subtraction-game oracle), and the
duplicated versions from `subtraction-game.py` (namespace `SubGame`).

Python lists become `List`, Python `int` becomes `Int` (or `Nat` where the
value is always a non-negative position or a Grundy value), a raised
`IndexError` becomes `Option.none`, and the sentinel absence results
`(None, None)` / `(None, None, None)` of the detectors become `Option.none`.
-/

/-- The `while g in reachable_values: g += 1` scan of the mex computation,
with an explicit fuel argument bounding the number of iterations. -/
def mexFrom (s : List Nat) : Nat → Nat → Nat
  | 0, g => g
  | fuel + 1, g => if g ∈ s then mexFrom s fuel (g + 1) else g

/-- mex: the smallest non-negative integer not in the list, computed by
scanning upward from 0 as the source does.  The fuel `s.foldr max 0 + 2`
strictly exceeds every element of `s`, so the scan always stops. -/
def mex (s : List Nat) : Nat := mexFrom s (s.foldr max 0 + 2) 0

/-- Reading `grundy[next_pos]` for each reported position, in iteration
order; `none` models Python's `IndexError` on an out-of-range index. -/
def getMany (g : List Nat) : List Nat → Option (List Nat)
  | [] => some []
  | m :: ms =>
    match g.get? m with
    | none => none
    | some v =>
      match getMany g ms with
      | none => none
      | some vs => some (v :: vs)

/-- One iteration of the builder's loop: collect the Grundy values of the
reachable positions and assign `grundy[n] = mex(reachable_values)`. -/
def grundyStep (game_function : Nat → List Nat) (grundy : List Nat) (n : Nat) :
    Option (List Nat) :=
  match getMany grundy (game_function n) with
  | none => none
  | some vals => some (grundy.set n (mex vals))

/-- The `for n in range(1, max_n + 1)` loop of `compute_grundy_values`. -/
def grundyLoop (game_function : Nat → List Nat) :
    List Nat → List Nat → Option (List Nat)
  | grundy, [] => some grundy
  | grundy, n :: ns =>
    match grundyStep game_function grundy n with
    | none => none
    | some g => grundyLoop game_function g ns

/-- `utils.compute_grundy_values`: `grundy = [0] * (max_n + 1)` followed by
the mex loop over `range(1, max_n + 1)`.  For `max_n < 0` the initial list
and the loop are both empty, exactly as in Python. -/
def compute_grundy_values (game_function : Nat → List Nat) (max_n : Int) :
    Option (List Nat) :=
  let len : Nat := (max_n + 1).toNat
  grundyLoop game_function (List.replicate len 0) (List.range' 1 (len - 1))

/-- `main.get_subtraction_game_function`:
`lambda x: set(x - s for s in S if x - s >= 0)`. -/
def get_subtraction_game_function (S : List Int) : Nat → List Nat :=
  fun x =>
    S.filterMap fun s => if 0 ≤ (x : Int) - s then some ((x : Int) - s).toNat else none

/-- Python's `range(1, min(max_p + 1, n - l))`: the candidate periods tried
at pre-period `l` for a sequence of length `n` with search bound `mp`. -/
def pRange (mp : Int) (n l : Nat) : List Nat :=
  List.range' 1 (min (mp + 1) ((n : Int) - l) - 1).toNat

/-- The inner verification loop of `utils.detect_pure_period`:
`grundy[i] == grundy[i + p]` for every `i` in `range(l, n - p)`. -/
def pureCheck (grundy : List Int) (l p : Nat) : Bool :=
  (List.range' l (grundy.length - p - l)).all fun i =>
    grundy.getD i 0 == grundy.getD (i + p) 0

/-- `utils.detect_pure_period`; the default search bound is
`len(grundy) // 2`.  `none` models the `(None, None)` absence result. -/
def detect_pure_period (grundy : List Int) (max_p : Option Int) :
    Option (Nat × Nat) :=
  let n := grundy.length
  let mp : Int := max_p.getD ((n : Int) / 2)
  (List.range n).findSome? fun l =>
    ((pRange mp n l).find? fun p => pureCheck grundy l p).map fun p => (l, p)

/-- The inner verification loop of `utils.detect_arithmetic_period`, with
`d_candidate = grundy[l + p] - grundy[l]`. -/
def arithCheck (grundy : List Int) (l p : Nat) : Bool :=
  (List.range' l (grundy.length - p - l)).all fun i =>
    grundy.getD i 0 + (grundy.getD (l + p) 0 - grundy.getD l 0) ==
      grundy.getD (i + p) 0

/-- `utils.detect_arithmetic_period`; the default search bound is
`len(grundy) // 2`.  `none` models the `(None, None, None)` result. -/
def detect_arithmetic_period (grundy : List Int) (max_p : Option Int) :
    Option (Nat × Nat × Int) :=
  let n := grundy.length
  let mp : Int := max_p.getD ((n : Int) / 2)
  (List.range n).findSome? fun l =>
    ((pRange mp n l).find? fun p => arithCheck grundy l p).map fun p =>
      (l, p, grundy.getD (l + p) 0 - grundy.getD l 0)

namespace SubGame

/-- `subtraction-game.compute_grundy_values`: the same mex loop, with the
inline move generation `grundy[n - m] for m in moves if n >= m`.  The guard
`n >= m` makes the index `n - m` non-negative, but it can still lie beyond
the end of the list when `m` is negative (Python `IndexError`, here `none`). -/
def compute_grundy_values (moves : List Int) (max_n : Int) : Option (List Nat) :=
  let len : Nat := (max_n + 1).toNat
  grundyLoop
    (fun n =>
      moves.filterMap fun m =>
        if m ≤ (n : Int) then some ((n : Int) - m).toNat else none)
    (List.replicate len 0) (List.range' 1 (len - 1))

/-- The inner verification loop of `subtraction-game.detect_pure_period`
(textually duplicated from `utils.py`). -/
def pureCheck (grundy : List Int) (l p : Nat) : Bool :=
  (List.range' l (grundy.length - p - l)).all fun i =>
    grundy.getD i 0 == grundy.getD (i + p) 0

/-- `subtraction-game.detect_pure_period`; identical to the `utils.py`
version except that the default search bound is `len(grundy) - 1`. -/
def detect_pure_period (grundy : List Int) (max_p : Option Int) :
    Option (Nat × Nat) :=
  let n := grundy.length
  let mp : Int := max_p.getD ((n : Int) - 1)
  (List.range n).findSome? fun l =>
    ((pRange mp n l).find? fun p => pureCheck grundy l p).map fun p => (l, p)

/-- The inner verification loop of `subtraction-game.detect_arithmetic_period`
(textually duplicated from `utils.py`). -/
def arithCheck (grundy : List Int) (l p : Nat) : Bool :=
  (List.range' l (grundy.length - p - l)).all fun i =>
    grundy.getD i 0 + (grundy.getD (l + p) 0 - grundy.getD l 0) ==
      grundy.getD (i + p) 0

/-- `subtraction-game.detect_arithmetic_period`; identical to the `utils.py`
version except that the default search bound is `len(grundy) - 1`. -/
def detect_arithmetic_period (grundy : List Int) (max_p : Option Int) :
    Option (Nat × Nat × Int) :=
  let n := grundy.length
  let mp : Int := max_p.getD ((n : Int) - 1)
  (List.range n).findSome? fun l =>
    ((pRange mp n l).find? fun p => arithCheck grundy l p).map fun p =>
      (l, p, grundy.getD (l + p) 0 - grundy.getD l 0)

end SubGame

/-- The pure-periodicity condition of the spec: `G(i) == G(i + p)` for every
`i` in `[l, len(G) - p)`. -/
def PureAt (G : List Int) (l p : Nat) : Prop :=
  ∀ i, l ≤ i → i + p < G.length → G.getD i 0 = G.getD (i + p) 0

/-- The arithmetic-periodicity condition of the spec:
`G(i) + d == G(i + p)` for every `i` in `[l, len(G) - p)`. -/
def ArithAt (G : List Int) (l p : Nat) (d : Int) : Prop :=
  ∀ i, l ≤ i → i + p < G.length → G.getD i 0 + d = G.getD (i + p) 0

/-- The search window of both detectors: a candidate `(l, p)` is tried
exactly when `1 ≤ p ≤ min(max_p, n - l - 1)`. -/
def InBounds (mp : Int) (n l p : Nat) : Prop :=
  1 ≤ p ∧ (p : Int) ≤ min mp ((n : Int) - l - 1)

/-! ### Library-style helper lemmas about list access -/

theorem get?_eq_getD : ∀ (g : List Nat) (i : Nat), i < g.length →
    g.get? i = some (g.getD i 0)
  | [], i, h => absurd h (by simp)
  | _ :: _, 0, _ => rfl
  | _ :: g, i + 1, h => get?_eq_getD g i (by simpa using h)

theorem getD_set_self : ∀ (g : List Nat) (i a : Nat), i < g.length →
    (g.set i a).getD i 0 = a
  | [], i, a, h => absurd h (by simp)
  | _ :: _, 0, _, _ => rfl
  | _ :: g, i + 1, a, h => getD_set_self g i a (by simpa using h)

theorem getD_set_ne : ∀ (g : List Nat) (i j a : Nat), i ≠ j →
    (g.set i a).getD j 0 = g.getD j 0
  | [], _, _, _, _ => by simp
  | _ :: _, 0, 0, _, h => absurd rfl h
  | _ :: _, 0, _ + 1, _, _ => rfl
  | _ :: _, _ + 1, 0, _, _ => rfl
  | _ :: g, i + 1, j + 1, a, h => by
    simpa using getD_set_ne g i j a (fun hh => h (by omega))

theorem getD_replicate_zero : ∀ (k i : Nat), (List.replicate k 0).getD i 0 = 0
  | 0, _ => by simp
  | _ + 1, 0 => rfl
  | k + 1, i + 1 => getD_replicate_zero k i

theorem getMany_eq_some (g : List Nat) :
    ∀ ms : List Nat, (∀ m ∈ ms, m < g.length) →
      getMany g ms = some (ms.map fun m => g.getD m 0)
  | [], _ => rfl
  | m :: ms, h => by
    have hm : m < g.length := h m (List.mem_cons_self m ms)
    have hms := getMany_eq_some g ms fun x hx => h x (List.mem_cons_of_mem m hx)
    simp only [getMany, get?_eq_getD g m hm, hms, List.map_cons]

/-! ### Correctness of the mex scan -/

theorem le_foldr_max (s : List Nat) : ∀ a ∈ s, a ≤ s.foldr max 0 := by
  induction s with
  | nil => simp
  | cons b t ih =>
    intro a ha
    rcases List.mem_cons.mp ha with rfl | ha
    · exact le_max_left _ _
    · exact le_trans (ih a ha) (le_max_right _ _)

theorem mexFrom_min (s : List Nat) :
    ∀ (fuel g j : Nat), g ≤ j → j < mexFrom s fuel g → j ∈ s
  | 0, g, j, hgj, hj => absurd hj (by simp [mexFrom]; omega)
  | fuel + 1, g, j, hgj, hj => by
    by_cases hg : g ∈ s
    · rw [mexFrom, if_pos hg] at hj
      rcases Nat.eq_or_lt_of_le hgj with rfl | h
      · exact hg
      · exact mexFrom_min s fuel (g + 1) j h hj
    · rw [mexFrom, if_neg hg] at hj
      omega

theorem mexFrom_not_mem (s : List Nat) :
    ∀ (fuel g : Nat), (∃ k, g ≤ k ∧ k < g + fuel ∧ k ∉ s) →
      mexFrom s fuel g ∉ s
  | 0, g, h => by obtain ⟨k, h1, h2, _⟩ := h; omega
  | fuel + 1, g, h => by
    by_cases hg : g ∈ s
    · rw [mexFrom, if_pos hg]
      obtain ⟨k, h1, h2, h3⟩ := h
      have hk : g + 1 ≤ k := by
        rcases Nat.eq_or_lt_of_le h1 with rfl | hlt
        · exact absurd hg h3
        · omega
      exact mexFrom_not_mem s fuel (g + 1) ⟨k, hk, by omega, h3⟩
    · rw [mexFrom, if_neg hg]
      exact hg

theorem mex_not_mem (s : List Nat) : mex s ∉ s := by
  apply mexFrom_not_mem
  refine ⟨s.foldr max 0 + 1, by omega, by omega, fun hmem => ?_⟩
  have := le_foldr_max s _ hmem
  omega

theorem mex_min (s : List Nat) : ∀ j, j < mex s → j ∈ s :=
  fun j hj => mexFrom_min s _ 0 j (Nat.zero_le j) hj

/-! ### Invariants of the builder loop -/

theorem grundyLoop_total (gf : Nat → List Nat) (ns : List Nat) :
    ∀ g : List Nat, (∀ n ∈ ns, ∀ m ∈ gf n, m < g.length) →
      ∃ G, grundyLoop gf g ns = some G ∧ G.length = g.length ∧
        ∀ i, i ∉ ns → G.getD i 0 = g.getD i 0 := by
  induction ns with
  | nil => exact fun g _ => ⟨g, rfl, rfl, fun _ _ => rfl⟩
  | cons n ns ih =>
    intro g h
    have hvals := getMany_eq_some g (gf n) (h n (List.mem_cons_self n ns))
    obtain ⟨G, hG, hGlen, hagree⟩ :=
      ih (g.set n (mex ((gf n).map fun m => g.getD m 0)))
        (fun x hx m hm => by
          rw [List.length_set]
          exact h x (List.mem_cons_of_mem n hx) m hm)
    refine ⟨G, ?_, by rw [hGlen, List.length_set], fun i hi => ?_⟩
    · simp only [grundyLoop, grundyStep, hvals]
      exact hG
    · have hi1 : i ∉ ns := fun hh => hi (List.mem_cons_of_mem n hh)
      have hin : n ≠ i := fun hh => hi (hh ▸ List.mem_cons_self n ns)
      rw [hagree i hi1, getD_set_ne g n i _ hin]

theorem grundyLoop_sound (gf : Nat → List Nat)
    (hgf : ∀ n, ∀ m ∈ gf n, m < n) :
    ∀ (k t : Nat) (g : List Nat), 1 ≤ t → t + k = g.length →
      ∃ G, grundyLoop gf g (List.range' t k) = some G ∧
        G.length = g.length ∧
        (∀ i, i < t → G.getD i 0 = g.getD i 0) ∧
        (∀ n, t ≤ n → n < g.length →
          G.getD n 0 = mex ((gf n).map fun m => G.getD m 0)) := by
  intro k
  induction k with
  | zero =>
    intro t g _ hlen
    exact ⟨g, rfl, rfl, fun _ _ => rfl, fun n h1 h2 => by omega⟩
  | succ k ih =>
    intro t g ht hlen
    have htg : t < g.length := by omega
    have hread : ∀ m ∈ gf t, m < g.length := fun m hm => by
      have := hgf t m hm
      omega
    have hvals := getMany_eq_some g (gf t) hread
    obtain ⟨G, hG, hGlen, hagree, hmex⟩ :=
      ih (t + 1) (g.set t (mex ((gf t).map fun m => g.getD m 0)))
        (by omega) (by rw [List.length_set]; omega)
    rw [List.length_set] at hGlen hmex
    refine ⟨G, ?_, hGlen, fun i hi => ?_, fun n h1 h2 => ?_⟩
    · rw [List.range'_succ]
      simp only [grundyLoop, grundyStep, hvals]
      exact hG
    · rw [hagree i (by omega), getD_set_ne g t i _ (by omega)]
    · rcases Nat.eq_or_lt_of_le h1 with rfl | hlt
      · rw [hagree t (by omega), getD_set_self g t _ htg]
        congr 1
        apply List.map_congr_left
        intro m hm
        have hmn := hgf t m hm
        rw [hagree m (by omega), getD_set_ne g t m _ (by omega)]
      · exact hmex n (by omega) h2

/-! ### Characterizing first-hit searches over integer ranges -/

theorem find?_range'_eq_some (f : Nat → Bool) :
    ∀ (k a p : Nat),
      (List.range' a k).find? f = some p ↔
        (a ≤ p ∧ p < a + k ∧ f p = true ∧
          ∀ q, a ≤ q → q < p → f q = false) := by
  intro k
  induction k with
  | zero =>
    intro a p
    simp only [List.range'_zero, List.find?_nil]
    constructor
    · intro h; cases h
    · intro h; omega
  | succ k ih =>
    intro a p
    rw [List.range'_succ]
    by_cases hfa : f a = true
    · rw [List.find?_cons_of_pos _ hfa]
      constructor
      · intro h
        injection h with h
        subst h
        exact ⟨Nat.le_refl a, by omega, hfa, fun q h1 h2 => by omega⟩
      · rintro ⟨h1, _, _, h4⟩
        have hpa : p = a := by
          by_contra hne
          have := h4 a (Nat.le_refl a) (by omega)
          rw [hfa] at this
          cases this
        rw [hpa]
    · have hfa' : f a = false := by
        cases h : f a
        · rfl
        · exact absurd h hfa
      rw [List.find?_cons_of_neg _ hfa, ih (a + 1) p]
      constructor
      · rintro ⟨h1, h2, h3, h4⟩
        refine ⟨by omega, by omega, h3, fun q hq1 hq2 => ?_⟩
        rcases Nat.eq_or_lt_of_le hq1 with rfl | hlt
        · exact hfa'
        · exact h4 q hlt hq2
      · rintro ⟨h1, h2, h3, h4⟩
        have hpa : p ≠ a := fun hh => by rw [hh, hfa'] at h3; cases h3
        exact ⟨by omega, by omega, h3, fun q hq1 hq2 => h4 q (by omega) hq2⟩

theorem find?_range'_eq_none (f : Nat → Bool) (k a : Nat) :
    (List.range' a k).find? f = none ↔
      ∀ q, a ≤ q → q < a + k → f q = false := by
  rw [List.find?_eq_none]
  constructor
  · intro h q h1 h2
    have := h q (by rw [List.mem_range'_1]; omega)
    cases hq : f q
    · rfl
    · exact absurd hq this
  · intro h q hq
    rw [List.mem_range'_1] at hq
    rw [h q hq.1 hq.2]
    simp

theorem findSome?_range'_eq_some {β : Type} (g : Nat → Option β) :
    ∀ (k a : Nat) (b : β),
      (List.range' a k).findSome? g = some b ↔
        ∃ l, a ≤ l ∧ l < a + k ∧ g l = some b ∧
          ∀ j, a ≤ j → j < l → g j = none := by
  intro k
  induction k with
  | zero =>
    intro a b
    simp only [List.range'_zero, List.findSome?_nil]
    constructor
    · intro h; cases h
    · rintro ⟨l, h1, h2, _, _⟩; omega
  | succ k ih =>
    intro a b
    rw [List.range'_succ, List.findSome?_cons]
    cases hga : g a with
    | some c =>
      constructor
      · intro h
        injection h with h
        exact ⟨a, Nat.le_refl a, by omega, by rw [hga, h], fun j h1 h2 => by omega⟩
      · rintro ⟨l, h1, h2, h3, h4⟩
        have hla : l = a := by
          by_contra hne
          have := h4 a (Nat.le_refl a) (by omega)
          rw [hga] at this
          cases this
        rw [hla] at h3
        rw [hga] at h3
        exact h3
    | none =>
      rw [ih (a + 1) b]
      constructor
      · rintro ⟨l, h1, h2, h3, h4⟩
        refine ⟨l, by omega, by omega, h3, fun j hj1 hj2 => ?_⟩
        rcases Nat.eq_or_lt_of_le hj1 with rfl | hlt
        · exact hga
        · exact h4 j hlt hj2
      · rintro ⟨l, h1, h2, h3, h4⟩
        have hla : l ≠ a := fun hh => by rw [hh, hga] at h3; cases h3
        exact ⟨l, by omega, by omega, h3, fun j hj1 hj2 => h4 j (by omega) hj2⟩

theorem findSome?_range'_eq_none {β : Type} (g : Nat → Option β) (k a : Nat) :
    (List.range' a k).findSome? g = none ↔
      ∀ l, a ≤ l → l < a + k → g l = none := by
  rw [List.findSome?_eq_none_iff]
  constructor
  · intro h l h1 h2
    exact h l (by rw [List.mem_range'_1]; omega)
  · intro h l hl
    rw [List.mem_range'_1] at hl
    exact h l hl.1 hl.2

/-! ### Bridging the boolean loops to the spec predicates -/

theorem mem_pRange (mp : Int) (n l p : Nat) :
    p ∈ pRange mp n l ↔ InBounds mp n l p := by
  unfold pRange InBounds
  rw [List.mem_range'_1]
  have h1 : min (mp + 1) ((n : Int) - l) - 1 = min mp ((n : Int) - l - 1) := by
    rcases le_total (mp + 1) ((n : Int) - l) with h | h
    · rw [min_eq_left h, min_eq_left (by omega)]
      omega
    · rw [min_eq_right h, min_eq_right (by omega)]
  rw [h1]
  generalize min mp ((n : Int) - l - 1) = E
  omega

theorem pureCheck_iff (G : List Int) (l p : Nat) :
    pureCheck G l p = true ↔ PureAt G l p := by
  unfold pureCheck PureAt
  rw [List.all_eq_true]
  constructor
  · intro h i h1 h2
    have := h i (by rw [List.mem_range'_1]; omega)
    simpa using this
  · intro h i hi
    rw [List.mem_range'_1] at hi
    simpa using h i hi.1 (by omega)

theorem pureCheck_false_iff (G : List Int) (l p : Nat) :
    pureCheck G l p = false ↔ ¬ PureAt G l p := by
  rw [← pureCheck_iff]
  cases pureCheck G l p <;> simp

theorem arithCheck_iff (G : List Int) (l p : Nat) :
    arithCheck G l p = true ↔ ArithAt G l p (G.getD (l + p) 0 - G.getD l 0) := by
  unfold arithCheck ArithAt
  rw [List.all_eq_true]
  constructor
  · intro h i h1 h2
    have := h i (by rw [List.mem_range'_1]; omega)
    simpa using this
  · intro h i hi
    rw [List.mem_range'_1] at hi
    simpa using h i hi.1 (by omega)

theorem arithCheck_false_iff (G : List Int) (l p : Nat) :
    arithCheck G l p = false ↔
      ¬ ArithAt G l p (G.getD (l + p) 0 - G.getD l 0) := by
  rw [← arithCheck_iff]
  cases arithCheck G l p <;> simp

theorem inBounds_lt (mp : Int) (n l p : Nat) (h : InBounds mp n l p) :
    l < n := by
  obtain ⟨h1, h2⟩ := h
  have := min_le_right mp ((n : Int) - l - 1)
  omega

/-! ### The shape shared by both detectors: first hit of a nested search -/

theorem search_eq_some_iff {β : Type} (n : Nat) (mp : Int)
    (check : Nat → Nat → Bool) (out : Nat → Nat → β) (b : β) :
    ((List.range n).findSome? fun l =>
        ((pRange mp n l).find? fun p => check l p).map fun p => out l p) =
        some b ↔
      ∃ l p, l < n ∧ p ∈ pRange mp n l ∧ check l p = true ∧ b = out l p ∧
        (∀ q, q ∈ pRange mp n l → q < p → check l q = false) ∧
        (∀ l' q, l' < l → q ∈ pRange mp n l' → check l' q = false) := by
  rw [List.range_eq_range', findSome?_range'_eq_some]
  constructor
  · rintro ⟨l, _, hln, hsome, hbefore⟩
    rw [Option.map_eq_some'] at hsome
    obtain ⟨p, hfind, hout⟩ := hsome
    rw [show pRange mp n l = List.range' 1 (min (mp + 1) ((n : Int) - l) - 1).toNat from rfl,
      find?_range'_eq_some] at hfind
    obtain ⟨hp1, hp2, hcheck, hmin⟩ := hfind
    refine ⟨l, p, by omega, ?_, hcheck, hout.symm, ?_, ?_⟩
    · unfold pRange
      rw [List.mem_range'_1]
      omega
    · intro q _ hq2
      have hq1 : 1 ≤ q := by
        unfold pRange at *
        rw [List.mem_range'_1] at *
        omega
      exact hmin q hq1 hq2
    · intro l' q hl' hq
      have := hbefore l' (Nat.zero_le l') (by omega)
      rw [Option.map_eq_none'] at this
      rw [show pRange mp n l' = List.range' 1 (min (mp + 1) ((n : Int) - l') - 1).toNat from rfl,
        find?_range'_eq_none] at this
      unfold pRange at hq
      rw [List.mem_range'_1] at hq
      exact this q hq.1 hq.2
  · rintro ⟨l, p, hln, hp, hcheck, hb, hminp, hminl⟩
    unfold pRange at hp
    rw [List.mem_range'_1] at hp
    refine ⟨l, Nat.zero_le l, by omega, ?_, ?_⟩
    · rw [Option.map_eq_some']
      refine ⟨p, ?_, hb.symm⟩
      rw [show pRange mp n l = List.range' 1 (min (mp + 1) ((n : Int) - l) - 1).toNat from rfl,
        find?_range'_eq_some]
      refine ⟨hp.1, hp.2, hcheck, fun q h1 h2 => ?_⟩
      apply hminp q _ h2
      unfold pRange
      rw [List.mem_range'_1]
      omega
    · intro j _ hj
      rw [Option.map_eq_none']
      rw [show pRange mp n j = List.range' 1 (min (mp + 1) ((n : Int) - j) - 1).toNat from rfl,
        find?_range'_eq_none]
      intro q h1 h2
      apply hminl j q hj
      unfold pRange
      rw [List.mem_range'_1]
      omega

theorem search_eq_none_iff {β : Type} (n : Nat) (mp : Int)
    (check : Nat → Nat → Bool) (out : Nat → Nat → β) :
    ((List.range n).findSome? fun l =>
        ((pRange mp n l).find? fun p => check l p).map fun p => out l p) =
        none ↔
      ∀ l p, l < n → p ∈ pRange mp n l → check l p = false := by
  rw [List.range_eq_range', findSome?_range'_eq_none]
  constructor
  · intro h l p hln hp
    have := h l (Nat.zero_le l) (by omega)
    rw [Option.map_eq_none'] at this
    rw [show pRange mp n l = List.range' 1 (min (mp + 1) ((n : Int) - l) - 1).toNat from rfl,
      find?_range'_eq_none] at this
    unfold pRange at hp
    rw [List.mem_range'_1] at hp
    exact this p hp.1 hp.2
  · intro h l _ hln
    rw [Option.map_eq_none']
    rw [show pRange mp n l = List.range' 1 (min (mp + 1) ((n : Int) - l) - 1).toNat from rfl,
      find?_range'_eq_none]
    intro q h1 h2
    apply h l q (by omega)
    unfold pRange
    rw [List.mem_range'_1]
    omega

/-! ### Full characterizations of the two detectors (explicit bound) -/

theorem detect_pure_some_iff (G : List Int) (mp : Int) (l p : Nat) :
    detect_pure_period G (some mp) = some (l, p) ↔
      l < G.length ∧ InBounds mp G.length l p ∧ PureAt G l p ∧
        (∀ q, InBounds mp G.length l q → q < p → ¬ PureAt G l q) ∧
        (∀ l' q, l' < l → InBounds mp G.length l' q → ¬ PureAt G l' q) := by
  rw [show detect_pure_period G (some mp) =
      ((List.range G.length).findSome? fun a =>
        ((pRange mp G.length a).find? fun q => pureCheck G a q).map
          fun q => ((a, q) : Nat × Nat)) from rfl,
    search_eq_some_iff]
  constructor
  · rintro ⟨l0, p0, hln, hp, hcheck, hout, hminp, hminl⟩
    obtain ⟨rfl, rfl⟩ : l = l0 ∧ p = p0 := by
      simpa [Prod.ext_iff] using hout
    refine ⟨hln, (mem_pRange mp G.length l p).mp hp,
      (pureCheck_iff G l p).mp hcheck, fun q hq1 hq2 => ?_,
      fun l' q h1 h2 => ?_⟩
    · exact (pureCheck_false_iff G l q).mp
        (hminp q ((mem_pRange mp G.length l q).mpr hq1) hq2)
    · exact (pureCheck_false_iff G l' q).mp
        (hminl l' q h1 ((mem_pRange mp G.length l' q).mpr h2))
  · rintro ⟨hln, hb, hpure, hminp, hminl⟩
    refine ⟨l, p, hln, (mem_pRange mp G.length l p).mpr hb,
      (pureCheck_iff G l p).mpr hpure, rfl, fun q hq1 hq2 => ?_,
      fun l' q h1 h2 => ?_⟩
    · exact (pureCheck_false_iff G l q).mpr
        (hminp q ((mem_pRange mp G.length l q).mp hq1) hq2)
    · exact (pureCheck_false_iff G l' q).mpr
        (hminl l' q h1 ((mem_pRange mp G.length l' q).mp h2))

theorem detect_pure_none_iff (G : List Int) (mp : Int) :
    detect_pure_period G (some mp) = none ↔
      ∀ l p, InBounds mp G.length l p → ¬ PureAt G l p := by
  rw [show detect_pure_period G (some mp) =
      ((List.range G.length).findSome? fun a =>
        ((pRange mp G.length a).find? fun q => pureCheck G a q).map
          fun q => ((a, q) : Nat × Nat)) from rfl,
    search_eq_none_iff]
  constructor
  · intro h l p hb
    exact (pureCheck_false_iff G l p).mp
      (h l p (inBounds_lt mp G.length l p hb)
        ((mem_pRange mp G.length l p).mpr hb))
  · intro h l p _ hp
    exact (pureCheck_false_iff G l p).mpr
      (h l p ((mem_pRange mp G.length l p).mp hp))

theorem detect_arith_some_iff (G : List Int) (mp : Int) (l p : Nat) (d : Int) :
    detect_arithmetic_period G (some mp) = some (l, p, d) ↔
      l < G.length ∧ InBounds mp G.length l p ∧
        d = G.getD (l + p) 0 - G.getD l 0 ∧ ArithAt G l p d ∧
        (∀ q, InBounds mp G.length l q → q < p →
          ¬ ArithAt G l q (G.getD (l + q) 0 - G.getD l 0)) ∧
        (∀ l' q, l' < l → InBounds mp G.length l' q →
          ¬ ArithAt G l' q (G.getD (l' + q) 0 - G.getD l' 0)) := by
  rw [show detect_arithmetic_period G (some mp) =
      ((List.range G.length).findSome? fun a =>
        ((pRange mp G.length a).find? fun q => arithCheck G a q).map
          fun q => ((a, q, G.getD (a + q) 0 - G.getD a 0) : Nat × Nat × Int))
        from rfl,
    search_eq_some_iff]
  constructor
  · rintro ⟨l0, p0, hln, hp, hcheck, hout, hminp, hminl⟩
    obtain ⟨rfl, rfl, rfl⟩ :
        l = l0 ∧ p = p0 ∧ d = G.getD (l0 + p0) 0 - G.getD l0 0 := by
      simpa [Prod.ext_iff] using hout
    refine ⟨hln, (mem_pRange mp G.length l p).mp hp, rfl,
      (arithCheck_iff G l p).mp hcheck, fun q hq1 hq2 => ?_,
      fun l' q h1 h2 => ?_⟩
    · exact (arithCheck_false_iff G l q).mp
        (hminp q ((mem_pRange mp G.length l q).mpr hq1) hq2)
    · exact (arithCheck_false_iff G l' q).mp
        (hminl l' q h1 ((mem_pRange mp G.length l' q).mpr h2))
  · rintro ⟨hln, hb, hd, harith, hminp, hminl⟩
    refine ⟨l, p, hln, (mem_pRange mp G.length l p).mpr hb,
      (arithCheck_iff G l p).mpr (hd ▸ harith), ?_, fun q hq1 hq2 => ?_,
      fun l' q h1 h2 => ?_⟩
    · rw [Prod.ext_iff, Prod.ext_iff]
      exact ⟨rfl, rfl, hd⟩
    · exact (arithCheck_false_iff G l q).mpr
        (hminp q ((mem_pRange mp G.length l q).mp hq1) hq2)
    · exact (arithCheck_false_iff G l' q).mpr
        (hminl l' q h1 ((mem_pRange mp G.length l' q).mp h2))

theorem detect_arith_none_iff (G : List Int) (mp : Int) :
    detect_arithmetic_period G (some mp) = none ↔
      ∀ l p, InBounds mp G.length l p →
        ¬ ArithAt G l p (G.getD (l + p) 0 - G.getD l 0) := by
  rw [show detect_arithmetic_period G (some mp) =
      ((List.range G.length).findSome? fun a =>
        ((pRange mp G.length a).find? fun q => arithCheck G a q).map
          fun q => ((a, q, G.getD (a + q) 0 - G.getD a 0) : Nat × Nat × Int))
        from rfl,
    search_eq_none_iff]
  constructor
  · intro h l p hb
    exact (arithCheck_false_iff G l p).mp
      (h l p (inBounds_lt mp G.length l p hb)
        ((mem_pRange mp G.length l p).mpr hb))
  · intro h l p _ hp
    exact (arithCheck_false_iff G l p).mpr
      (h l p ((mem_pRange mp G.length l p).mp hp))

/-! ### Claim theorems -/

/-- C1: for every oracle that maps each position `n` to positions strictly
smaller than `n` (and hence non-negative), and every `max_n ≥ 0`, the
sequence `G` returned by the Grundy builder satisfies, for every `n` in
`[1, max_n]`: `G(n)` is not the Grundy value of any position reachable from
`n`, and every smaller non-negative integer is such a value — i.e. `G(n)`
is the smallest non-negative integer not equal to `G(m)` for `m` in
`oracle(n)`. -/
theorem grundy_values_are_mex (game_function : Nat → List Nat) (max_n : Int)
    (h0 : 0 ≤ max_n) (hgf : ∀ n, ∀ m ∈ game_function n, m < n) :
    ∃ G, compute_grundy_values game_function max_n = some G ∧
      ∀ n : Nat, 1 ≤ n → (n : Int) ≤ max_n →
        G.getD n 0 ∉ (game_function n).map (fun m => G.getD m 0) ∧
        ∀ k, k < G.getD n 0 → k ∈ (game_function n).map (fun m => G.getD m 0) := by
  have hl1 : 1 ≤ (max_n + 1).toNat := by omega
  obtain ⟨G, hG, hGlen, hagree, hmex⟩ :=
    grundyLoop_sound game_function hgf ((max_n + 1).toNat - 1) 1
      (List.replicate ((max_n + 1).toNat) 0) (Nat.le_refl 1)
      (by rw [List.length_replicate]; omega)
  refine ⟨G, hG, fun n h1 h2 => ?_⟩
  have hmexn := hmex n h1 (by rw [List.length_replicate]; omega)
  constructor
  · rw [hmexn]
    exact mex_not_mem _
  · intro k hk
    rw [hmexn] at hk
    exact mex_min _ k hk

/-- Witness for C1: the oracle `n ↦ [0, …, n-1]` with `max_n = 2` satisfies
the hypotheses, and the builder succeeds on it. -/
theorem grundy_values_are_mex_witness :
    (compute_grundy_values List.range 2).isSome = true := by
  obtain ⟨G, hG, _⟩ :=
    grundy_values_are_mex List.range 2 (by decide)
      (fun n m hm => List.mem_range.mp hm)
  rw [hG]
  rfl

/-- C7 counterexample: the claim quantifies over every oracle, but at the
oracle `n ↦ [5]` with `max_n = 1` the source raises `IndexError`
(`grundy[5]` on a list of length 2) instead of returning a sequence of
length `max_n + 1`; in the embedding the builder returns `none`. -/
theorem grundy_builder_oob_oracle_cex :
    compute_grundy_values (fun _ => [5]) 1 = none := rfl

/-- C7 (amended): for every oracle whose reported positions for the
processed range all lie within the sequence (at most `max_n`), and every
`max_n ≥ 0`, the builder returns a sequence of length exactly `max_n + 1`
whose element at index 0 equals 0. -/
theorem grundy_builder_length_and_zero (game_function : Nat → List Nat)
    (max_n : Int) (h0 : 0 ≤ max_n)
    (hgf : ∀ n : Nat, 1 ≤ n → (n : Int) ≤ max_n →
      ∀ m ∈ game_function n, (m : Int) ≤ max_n) :
    ∃ G, compute_grundy_values game_function max_n = some G ∧
      (G.length : Int) = max_n + 1 ∧ G.getD 0 0 = 0 := by
  obtain ⟨G, hG, hGlen, hagree⟩ :=
    grundyLoop_total game_function (List.range' 1 ((max_n + 1).toNat - 1))
      (List.replicate ((max_n + 1).toNat) 0)
      (fun n hn m hm => by
        rw [List.mem_range'_1] at hn
        rw [List.length_replicate]
        have := hgf n hn.1 (by omega) m hm
        omega)
  rw [List.length_replicate] at hGlen
  refine ⟨G, hG, by omega, ?_⟩
  have h0mem : 0 ∉ List.range' 1 ((max_n + 1).toNat - 1) := fun hh => by
    rw [List.mem_range'_1] at hh
    omega
  rw [hagree 0 h0mem, getD_replicate_zero]

/-- Witness for C7: the oracle `n ↦ [0]` with `max_n = 2` satisfies the
amended hypotheses, and the builder succeeds on it. -/
theorem grundy_builder_length_and_zero_witness :
    (compute_grundy_values (fun _ => [0]) 2).isSome = true := by
  obtain ⟨G, hG, _, _⟩ :=
    grundy_builder_length_and_zero (fun _ => [0]) 2 (by decide)
      (fun n _ _ m hm => by
        rcases List.mem_singleton.mp hm with rfl
        decide)
  rw [hG]
  rfl

/-- C4 counterexample: for `max_n = -1` both builders return the empty
sequence (`[0] * 0 == []` and an empty loop in Python), not an
`InvalidArgument` failure. -/
theorem grundy_builder_no_invalid_argument_cex :
    compute_grundy_values (fun _ => []) (-1) = some [] ∧
      SubGame.compute_grundy_values [1] (-1) = some [] :=
  ⟨rfl, rfl⟩

/-- C4 (amended): for every `max_n < 0` both Grundy builders return the
empty sequence without any error. -/
theorem negative_max_n_returns_empty (game_function : Nat → List Nat)
    (moves : List Int) (max_n : Int) (h : max_n < 0) :
    compute_grundy_values game_function max_n = some [] ∧
      SubGame.compute_grundy_values moves max_n = some [] := by
  have hlen : (max_n + 1).toNat = 0 := Int.toNat_of_nonpos (by omega)
  constructor <;>
    simp [compute_grundy_values, SubGame.compute_grundy_values, hlen,
      grundyLoop]

/-- Witness for C4 (amended) at `max_n = -2`. -/
theorem negative_max_n_returns_empty_witness :
    compute_grundy_values (fun _ => []) (-2) = some [] ∧
      SubGame.compute_grundy_values [1] (-2) = some [] :=
  negative_max_n_returns_empty (fun _ => []) [1] (-2) (by decide)

/-- C2: full functional correctness of `detect_pure_period` with an explicit
search bound.  If it returns `(l, p)` then the tail condition
`G(i) == G(i + p)` holds on `[l, len(G) - p)`, `p` lies in
`1 ≤ p ≤ min(max_p, len(G) - l - 1)`, and no lexicographically earlier pair
within the same bounds satisfies the condition; if no pair within the
bounds satisfies it, the detector reports absence. -/
theorem detect_pure_correct (G : List Int) (mp : Int) :
    (∀ l p, detect_pure_period G (some mp) = some (l, p) →
      PureAt G l p ∧ InBounds mp G.length l p ∧
        ∀ l' p', (l' < l ∨ (l' = l ∧ p' < p)) →
          InBounds mp G.length l' p' → ¬ PureAt G l' p') ∧
    ((∀ l p, InBounds mp G.length l p → ¬ PureAt G l p) →
      detect_pure_period G (some mp) = none) := by
  constructor
  · intro l p h
    obtain ⟨hln, hb, hpure, hminp, hminl⟩ := (detect_pure_some_iff G mp l p).mp h
    refine ⟨hpure, hb, fun l' p' hlex hb' => ?_⟩
    rcases hlex with hlt | ⟨rfl, hplt⟩
    · exact hminl l' p' hlt hb'
    · exact hminp p' hb' hplt
  · intro h
    exact (detect_pure_none_iff G mp).mpr h

/-- Witness for C2: on `G = [0, 1, 0, 1, 0]` with bound 2 the detector
returns `(0, 2)`, and the re-checked tail condition holds at `i = 1`. -/
theorem detect_pure_correct_witness :
    ([0, 1, 0, 1, 0] : List Int).getD 1 0 =
      ([0, 1, 0, 1, 0] : List Int).getD (1 + 2) 0 := by
  have h := (detect_pure_correct [0, 1, 0, 1, 0] 2).1 0 2 rfl
  exact h.1 1 (by decide) (by decide)

/-- C3: if `detect_arithmetic_period` returns `(l, p, d)`, then
`G(i) + d == G(i + p)` for every `i` in `[l, len(G) - p)`, and
`d == G(l + p) - G(l)`. -/
theorem detect_arithmetic_sound (G : List Int) (mp : Int) (l p : Nat)
    (d : Int) (h : detect_arithmetic_period G (some mp) = some (l, p, d)) :
    ArithAt G l p d ∧ d = G.getD (l + p) 0 - G.getD l 0 := by
  obtain ⟨_, _, hd, harith, _, _⟩ := (detect_arith_some_iff G mp l p d).mp h
  exact ⟨harith, hd⟩

/-- Witness for C3: on `G = [0, 1, 2, 3]` with bound 2 the detector returns
`(0, 1, 1)`; the saltus condition holds at `i = 0` and `d` is the first
difference. -/
theorem detect_arithmetic_sound_witness :
    ([0, 1, 2, 3] : List Int).getD 0 0 + 1 =
        ([0, 1, 2, 3] : List Int).getD (0 + 1) 0 ∧
      (1 : Int) =
        ([0, 1, 2, 3] : List Int).getD (0 + 1) 0 -
          ([0, 1, 2, 3] : List Int).getD 0 0 := by
  have h := detect_arithmetic_sound [0, 1, 2, 3] 2 0 1 1 rfl
  exact ⟨h.1 0 (by decide) (by decide), h.2⟩

/-- C5: if the pure detector returns `(l, p)`, the arithmetic detector on
the same sequence with the same bound also returns a witness
`(l1, p1, d1)`, and `(l1, p1)` is lexicographically at most `(l, p)`; when
the two coincide the saltus is 0. -/
theorem arith_not_later_than_pure (G : List Int) (mp : Int) (l p : Nat)
    (h : detect_pure_period G (some mp) = some (l, p)) :
    ∃ l1 p1 d1, detect_arithmetic_period G (some mp) = some (l1, p1, d1) ∧
      (l1 < l ∨ (l1 = l ∧ p1 ≤ p)) ∧ (l1 = l → p1 = p → d1 = 0) := by
  obtain ⟨hln, hb, hpure, hminp, hminl⟩ := (detect_pure_some_iff G mp l p).mp h
  have hlp : l + p < G.length := by
    obtain ⟨h1, h2⟩ := hb
    have := min_le_right mp ((G.length : Int) - l - 1)
    omega
  have hd0 : G.getD (l + p) 0 - G.getD l 0 = 0 := by
    have := hpure l (Nat.le_refl l) hlp
    omega
  have harith : ArithAt G l p (G.getD (l + p) 0 - G.getD l 0) := by
    rw [hd0]
    intro i h1 h2
    rw [hpure i h1 h2]
    omega
  cases harr : detect_arithmetic_period G (some mp) with
  | none => exact absurd harith ((detect_arith_none_iff G mp).mp harr l p hb)
  | some t =>
    obtain ⟨l1, p1, d1⟩ := t
    obtain ⟨hln1, hb1, hd1, harith1, hminp1, hminl1⟩ :=
      (detect_arith_some_iff G mp l1 p1 d1).mp harr
    refine ⟨l1, p1, d1, rfl, ?_, fun he1 he2 => ?_⟩
    · by_cases hll : l1 < l
      · exact Or.inl hll
      · have hle : l1 ≤ l := by
          by_contra hgt
          exact hminl1 l p (by omega) hb harith
        have heq : l1 = l := by omega
        subst heq
        refine Or.inr ⟨rfl, ?_⟩
        by_contra hgt
        exact hminp1 p hb (by omega) harith
    · rw [he1, he2] at hd1
      rw [hd1, hd0]

/-- Witness for C5: on `G = [0, 1, 0, 1, 0]` with bound 2 the pure detector
returns `(0, 2)`, so the arithmetic detector returns a witness too. -/
theorem arith_not_later_than_pure_witness :
    (detect_arithmetic_period [0, 1, 0, 1, 0] (some 2)).isSome = true := by
  obtain ⟨l1, p1, d1, heq, _, _⟩ :=
    arith_not_later_than_pure [0, 1, 0, 1, 0] 2 0 2 rfl
  rw [heq]
  rfl

/-- C6: with an explicitly supplied bound the detectors of
`subtraction-game.py` coincide with those of `utils.py`; when the bound is
omitted each module fills in its own default, `len(G) - 1` for
`subtraction-game.py` and `len(G) // 2` for `utils.py`. -/
theorem modules_detectors_agree (G : List Int) (mp : Int) :
    SubGame.detect_pure_period G (some mp) = detect_pure_period G (some mp) ∧
      SubGame.detect_arithmetic_period G (some mp) =
        detect_arithmetic_period G (some mp) ∧
      detect_pure_period G none =
        detect_pure_period G (some ((G.length : Int) / 2)) ∧
      detect_arithmetic_period G none =
        detect_arithmetic_period G (some ((G.length : Int) / 2)) ∧
      SubGame.detect_pure_period G none =
        SubGame.detect_pure_period G (some ((G.length : Int) - 1)) ∧
      SubGame.detect_arithmetic_period G none =
        SubGame.detect_arithmetic_period G (some ((G.length : Int) - 1)) :=
  ⟨rfl, rfl, rfl, rfl, rfl, rfl⟩

/-- C8: for the subtraction game with `S = [1, 2]` and `max_n = 10` both
builders return exactly `[0,1,2,0,1,2,0,1,2,0,1]`, and `detect_pure` on
that sequence returns the witness `(l = 0, p = 3)` in both modules. -/
theorem subtraction_game_12_example :
    compute_grundy_values (get_subtraction_game_function [1, 2]) 10 =
        some [0, 1, 2, 0, 1, 2, 0, 1, 2, 0, 1] ∧
      SubGame.compute_grundy_values [1, 2] 10 =
        some [0, 1, 2, 0, 1, 2, 0, 1, 2, 0, 1] ∧
      detect_pure_period [0, 1, 2, 0, 1, 2, 0, 1, 2, 0, 1] none =
        some (0, 3) ∧
      SubGame.detect_pure_period [0, 1, 2, 0, 1, 2, 0, 1, 2, 0, 1] none =
        some (0, 3) :=
  ⟨rfl, rfl, rfl, rfl⟩

/-- C9: a sequence of length 1 admits no candidate period `p ≥ 1` inside
the inner-loop bound, so both modules' pure detectors report absence, for
every choice of `max_p` (explicit or defaulted). -/
theorem singleton_no_period (G : List Int) (h : G.length = 1)
    (mp : Option Int) :
    detect_pure_period G mp = none ∧
      SubGame.detect_pure_period G mp = none := by
  have key : ∀ m : Int, detect_pure_period G (some m) = none := by
    intro m
    apply (detect_pure_none_iff G m).mpr
    intro l p hb _
    obtain ⟨h1, h2⟩ := hb
    have hm := min_le_right m ((G.length : Int) - l - 1)
    omega
  cases mp with
  | some m =>
    refine ⟨key m, ?_⟩
    rw [show SubGame.detect_pure_period G (some m) =
        detect_pure_period G (some m) from rfl]
    exact key m
  | none =>
    constructor
    · rw [show detect_pure_period G none =
          detect_pure_period G (some ((G.length : Int) / 2)) from rfl]
      exact key _
    · rw [show SubGame.detect_pure_period G none =
          detect_pure_period G (some ((G.length : Int) - 1)) from rfl]
      exact key _

/-- Witness for C9 at `G = [7]` and `max_p = 5`. -/
theorem singleton_no_period_witness :
    detect_pure_period [(7 : Int)] (some 5) = none ∧
      SubGame.detect_pure_period [(7 : Int)] (some 5) = none :=
  singleton_no_period [(7 : Int)] rfl (some 5)

/-- C10: on the empty sequence both detectors return the absence result at
once (the outer loop body never runs, so no index is ever read), for every
choice of `max_p`. -/
theorem empty_sequence_detectors_absent (mp : Option Int) :
    detect_pure_period [] mp = none ∧
      detect_arithmetic_period [] mp = none :=
  ⟨rfl, rfl⟩
